import Mathlib

/-!
Fyne-Markdown: the File menu handlers of `main.go`.

A shallow embedding of `src/main/main.go`: the record `app_config` together with
the window title and the file store it acts on, and the three callbacks behind
File > Open, File > Save and File > Save as.

Go strings and byte slices are modelled by one type, the sequence of their
characters: the conversions `[]byte(s)` and `string(b)` of the source copy the
contents unchanged and are the identity here.

The toolkit is outside the source. Its part is modelled by what the handlers
observe of it: the values that the dialogs and the storage layer hand over are
inputs of the handlers, and the calls the handlers make are recorded in a
trace. The preview pane, which `makeUI` binds to the changes of the entry, takes
no part in the handlers and is left out.
-/

namespace FyneMarkdown

/-- Go `string` and `[]byte`: the sequence of characters. -/
abbrev GoString := List Char

/-- Go `error` values, identified by their message. -/
abbrev GoError := List Char

/-- The interface `fyne.URI`, as far as `main.go` calls it: `Name()` and
`String()`. The two are independent methods of the interface. -/
structure URI where
  /-- The result of `Name()`. -/
  Name : GoString
  /-- The result of `String()`. -/
  String : GoString
  deriving DecidableEq, Repr

/-- The interface `fyne.URIReadCloser`: `URI()` and the outcome of reading it to
the end with `io.ReadAll`, which is the data or an error. -/
structure URIReadCloser where
  /-- The result of `URI()`. -/
  URI : URI
  /-- The result `(data, err)` of `io.ReadAll(reader)`. -/
  ReadAll : Except GoError GoString

/-- The interface `fyne.URIWriteCloser`: `URI()` and how many characters the
sink takes before `Write` fails (`none`: `Write` never fails). -/
structure URIWriteCloser where
  /-- The result of `URI()`. -/
  URI : URI
  /-- The room of the sink. -/
  room : Option Nat

/-- What the handlers do to the toolkit, in the order they do it. -/
inductive Effect where
  /-- The call `dialog.ShowError(err, w)`. -/
  | ShowError (err : GoError)
  /-- The call `dialog.ShowInformation(title, message, w)`. -/
  | ShowInformation (title message : GoString)
  /-- The call `storage.Writer(uri)`. -/
  | Writer (uri : URI)
  /-- The call `write.Write(data)` on a writer of `uri`. -/
  | Write (uri : URI) (data : GoString)
  /-- The call `write.Close()`. -/
  | CloseWriter (uri : URI)
  /-- The call `reader.Close()`. -/
  | CloseReader (uri : URI)
  deriving DecidableEq

/-- The mutable state the handlers act on: the fields of `app_config` that they
read and write, the title of the window `w`, the stored files and the trace of
toolkit calls. -/
structure AppState where
  /-- The field `EditWidget.Text`. -/
  Text : GoString
  /-- The field `CurrentFile`; `none` is the nil interface. -/
  CurrentFile : Option URI
  /-- The field `SaveMenuItem.Disabled`. -/
  Disabled : Bool
  /-- The value of `w.Title()`. -/
  Title : GoString
  /-- The contents of the stored files; `none` where there is no file. -/
  files : URI → Option GoString
  /-- The toolkit calls made so far, oldest first. -/
  trace : List Effect

/-- The function `strings.HasSuffix` of the Go library:
`len(s) >= len(suffix) && s[len(s)-len(suffix):] == suffix`. -/
def HasSuffix (s suffix : GoString) : Bool :=
  decide (s.length ≥ suffix.length) && (s.drop (s.length - suffix.length) == suffix)

/-- The function `unicode.ToLower` on the letters `A` to `Z`, which it moves by
`'a' - 'A'`; every other character is kept. The Go library also lowers letters
outside ASCII; none of them is lowered to `.`, `m` or `d`, the characters the
test of `save_as_func` looks for. -/
def unicode_ToLower (c : Char) : Char :=
  if 'A' ≤ c ∧ c ≤ 'Z' then Char.ofNat (c.toNat + ('a'.toNat - 'A'.toNat)) else c

/-- The function `strings.ToLower` of the Go library: every character lowered. -/
def ToLower (s : GoString) : GoString :=
  s.map unicode_ToLower

/-- The value `filter` of the source: `storage.NewExtensionFileFilter` applied
to the list of the extensions `.md` and `.MD`; the filter is that list. -/
def filter : List GoString :=
  [".md".toList, ".MD".toList]

/-- The file dialogs of the toolkit, as far as the handlers configure them. -/
structure FileDialog where
  /-- Whether the dialog was made by `dialog.NewFileSave` (else `NewFileOpen`). -/
  save : Bool
  /-- The name set by `SetFileName`, empty when none was set. -/
  FileName : GoString
  /-- The extensions of the filter set by `SetFilter`, `none` when none was set. -/
  Filter : Option (List GoString)
  /-- Whether `Show` was called. -/
  shown : Bool
  deriving DecidableEq

/-- The dialog that the action returned by `open_func` makes and shows:
`dialog.NewFileOpen`, then `SetFilter(filter)`, then `Show()`. -/
def open_func : FileDialog :=
  let open_dialog : FileDialog := ⟨false, [], none, false⟩
  let open_dialog := { open_dialog with Filter := some filter }
  { open_dialog with shown := true }

/-- The dialog that the action returned by `save_as_func` makes and shows:
`dialog.NewFileSave`, then `SetFileName("untitled.md")`, `SetFilter(filter)`
and `Show()`. -/
def save_as_func : FileDialog :=
  let save_dialog : FileDialog := ⟨true, [], none, false⟩
  let save_dialog := { save_dialog with FileName := "untitled.md".toList }
  let save_dialog := { save_dialog with Filter := some filter }
  { save_dialog with shown := true }

/-- One toolkit call is added to the trace. -/
def AppState.emit (s : AppState) (e : Effect) : AppState :=
  { s with trace := s.trace ++ [e] }

/-- The file store with the file at `u` holding `data`. -/
def setFile (files : URI → Option GoString) (u : URI) (data : GoString) :
    URI → Option GoString :=
  fun v => if v = u then some data else files v

/-- What a sink with the given room takes of `data`: all of it, or the part
that fits. -/
def taken (room : Option Nat) (data : GoString) : GoString :=
  match room with
  | none => data
  | some n => data.take n

/-- Whether `Write(data)` on a sink with the given room returns no error: all
of `data` is taken. -/
def writeOk (room : Option Nat) (data : GoString) : Bool :=
  match room with
  | none => true
  | some n => decide (data.length ≤ n)

/-- The call `write.Write(data)`. Every writer of this program is opened by
`storage.Writer`, which empties the file, and is written once, from the start:
afterwards the file holds what the sink took of `data`. -/
def Write (s : AppState) (write : URIWriteCloser) (data : GoString) : AppState :=
  { s with files := setFile s.files write.URI (taken write.room data),
           trace := s.trace ++ [Effect.Write write.URI data] }

/-- The call `storage.Writer(uri)` when it returns a writer: the file at `uri`
is created or emptied. -/
def storage_Writer (s : AppState) (uri : URI) : AppState :=
  { s with files := setFile s.files uri [],
           trace := s.trace ++ [Effect.Writer uri] }

/-- The method `makeUI`: the entry made by `widget.NewMultiLineEntry` has the
empty text. -/
def makeUI (s : AppState) : AppState :=
  { s with Text := [] }

/-- The method `createMenuItems`: the Save item is recorded and disabled. -/
def createMenuItems (s : AppState) : AppState :=
  { s with Disabled := true }

/-- The function `main` up to `ShowAndRun`, over the stored files `files`: the
window is made with the title `Fyne-Markdown`, `cfg` is the zero `app_config`
(no current file), a new menu item is enabled, then `makeUI` and
`createMenuItems` run. -/
def main (files : URI → Option GoString) : AppState :=
  let w : AppState := ⟨[], none, false, "Fyne-Markdown".toList, files, []⟩
  createMenuItems (makeUI w)

/-- The callback that `open_func` hands to `dialog.NewFileOpen`
(lines 124 to 150). The deferred `reader.Close()` runs when the callback
returns, after the statements that follow its `defer`. -/
def open_func_callback (s : AppState) (reader : Option URIReadCloser)
    (err : Option GoError) : AppState :=
  match err with
  | some e => s.emit (Effect.ShowError e)
  | none =>
    match reader with
    | none => s
    | some reader =>
      match reader.ReadAll with
      | Except.error e =>
        (s.emit (Effect.ShowError e)).emit (Effect.CloseReader reader.URI)
      | Except.ok data =>
        let s := { s with Text := data }
        let s := { s with CurrentFile := some reader.URI }
        let s := { s with Title := s.Title ++ "-".toList ++ reader.URI.Name }
        let s := { s with Disabled := false }
        s.emit (Effect.CloseReader reader.URI)

/-- The action returned by `save_func` (lines 159 to 172). `writer` is what
`storage.Writer(app.CurrentFile)` answers when it is called: an error, or a
writer with the given room. -/
def save_func (s : AppState) (writer : Except GoError (Option Nat)) : AppState :=
  match s.CurrentFile with
  | none => s
  | some uri =>
    match writer with
    | Except.error e => (s.emit (Effect.Writer uri)).emit (Effect.ShowError e)
    | Except.ok room =>
      let write : URIWriteCloser := ⟨uri, room⟩
      let s := storage_Writer s uri
      let s := Write s write s.Text
      s.emit (Effect.CloseWriter uri)

/-- The callback that `save_as_func` hands to `dialog.NewFileSave`
(lines 178 to 210). The `defer write.Close()` is reached only on the accepting
path and runs when the callback returns. -/
def save_as_func_callback (s : AppState) (write : Option URIWriteCloser)
    (err : Option GoError) : AppState :=
  match err with
  | some e => s.emit (Effect.ShowError e)
  | none =>
    match write with
    | none => s
    | some write =>
      if !HasSuffix (ToLower write.URI.String) ".md".toList then
        s.emit (Effect.ShowInformation "提示".toList "使用.md或.MD作为后缀".toList)
      else
        let s := Write s write s.Text
        let s := { s with CurrentFile := some write.URI }
        let s := { s with Title := s.Title ++ "-".toList ++ write.URI.Name }
        let s := { s with Disabled := false }
        s.emit (Effect.CloseWriter write.URI)

/-- What the user and the toolkit can make happen after start: a callback of
the Open dialog, a click on Save, a callback of the Save-as dialog, each with
what the toolkit hands over. -/
inductive Event where
  /-- The Open dialog calls back with `(reader, err)`. -/
  | Open (reader : Option URIReadCloser) (err : Option GoError)
  /-- The item Save is chosen; `writer` is the answer of `storage.Writer`. -/
  | Save (writer : Except GoError (Option Nat))
  /-- The Save-as dialog calls back with `(write, err)`. -/
  | SaveAs (write : Option URIWriteCloser) (err : Option GoError)

/-- The handler of one event. -/
def step (s : AppState) : Event → AppState
  | Event.Open reader err => open_func_callback s reader err
  | Event.Save writer => save_func s writer
  | Event.SaveAs write err => save_as_func_callback s write err

/-- The handlers of a sequence of events, run from `s` in order. -/
def run (s : AppState) (events : List Event) : AppState :=
  events.foldl step s

/-- The part of `s` after its last `/`; all of `s` when it has none. -/
def afterLastSlash (s : GoString) : GoString :=
  (s.reverse.takeWhile fun c => c != '/').reverse

/-- The state after an accepted Save-as of `write` from `s`: the buffer went to
the writer, which was closed, the target is the current file, its name is
appended to the title and Save is enabled. -/
def acceptedState (s : AppState) (write : URIWriteCloser) : AppState :=
  { Text := s.Text
    CurrentFile := some write.URI
    Disabled := false
    Title := s.Title ++ "-".toList ++ write.URI.Name
    files := setFile s.files write.URI (taken write.room s.Text)
    trace := s.trace ++ [Effect.Write write.URI s.Text, Effect.CloseWriter write.URI] }

/-- The state after a Save-as rejected for its name: the information dialog was
shown and nothing else happened. -/
def rejectedState (s : AppState) : AppState :=
  s.emit (Effect.ShowInformation "提示".toList "使用.md或.MD作为后缀".toList)

/-- A Save-as callback that took `s` to `t` accepted the save to `write`: the
buffer of `s` was written to the target and the target is the current file. -/
def Accepted (s t : AppState) (write : URIWriteCloser) : Prop :=
  t.trace = s.trace ++ [Effect.Write write.URI s.Text, Effect.CloseWriter write.URI] ∧
    t.files write.URI = some (taken write.room s.Text) ∧
    t.CurrentFile = some write.URI

instance (s t : AppState) (write : URIWriteCloser) : Decidable (Accepted s t write) := by
  unfold Accepted
  infer_instance

/-- The reader that the Open dialog hands over for the stored file at `p` when
reading it succeeds: `ReadAll` gives the stored contents. There is none when no
file is stored at `p`. -/
def fileReader (s : AppState) (p : URI) : Option URIReadCloser :=
  (s.files p).map fun data => ⟨p, Except.ok data⟩

/-- The invariant of the file reference tracker: Save is enabled exactly when a
current file is present. -/
def SaveInv (s : AppState) : Prop :=
  s.Disabled = false ↔ s.CurrentFile ≠ none

/-- The display name that an event appends to the title: that of the file of a
successful Open (no dialog error, a reader, a read without error) or of the
target of an accepted Save-as (no dialog error, a writer, the test of the
extension passed); `none` for every other event. -/
def displayName : Event → Option GoString
  | Event.Open (some reader) none =>
    match reader.ReadAll with
    | Except.ok _ => some reader.URI.Name
    | Except.error _ => none
  | Event.SaveAs (some write) none =>
    if HasSuffix (ToLower write.URI.String) ".md".toList then some write.URI.Name else none
  | _ => none

/-- Whether the event is a successful Open or an accepted Save-as. -/
def succeeds (e : Event) : Bool :=
  (displayName e).isSome

/-- The display names `names`, in order, each after a `-`. -/
def appended : List GoString → GoString
  | [] => []
  | n :: names => "-".toList ++ n ++ appended names

/-- The buffer, the tracked file, the Save flag, the title and the stored files
of `t` are those of `s`. -/
def Unchanged (s t : AppState) : Prop :=
  t.Text = s.Text ∧ t.CurrentFile = s.CurrentFile ∧ t.Disabled = s.Disabled ∧
    t.Title = s.Title ∧ t.files = s.files

/-! ## Lemmas on the library functions -/

theorem HasSuffix_iff (s suffix : GoString) : HasSuffix s suffix = true ↔ suffix <:+ s := by
  unfold HasSuffix
  constructor
  · intro h
    simp only [ge_iff_le, Bool.and_eq_true, decide_eq_true_eq, beq_iff_eq] at h
    exact h.2 ▸ List.drop_suffix _ s
  · rintro ⟨t, rfl⟩
    simp

theorem suffix_after_slash (suffix pre name : GoString) (hno : '/' ∉ suffix)
    (h : suffix <:+ pre ++ '/' :: name) : suffix <:+ name := by
  have hname : name <:+ pre ++ '/' :: name := ⟨pre ++ ['/'], by simp⟩
  by_cases hlen : suffix.length ≤ name.length
  · exact List.suffix_of_suffix_length_le h hname hlen
  · have hslash : '/' :: name <:+ pre ++ '/' :: name := List.suffix_append _ _
    have hle : ('/' :: name).length ≤ suffix.length := by
      simp only [List.length_cons]; omega
    have hsub : '/' :: name <:+ suffix := List.suffix_of_suffix_length_le hslash h hle
    exact absurd (hsub.subset (List.mem_cons_self _ _)) hno

theorem afterLastSlash_split (s : GoString) :
    ∃ pre, s = pre ++ afterLastSlash s ∧ (pre = [] ∨ ∃ p, pre = p ++ ['/']) := by
  unfold afterLastSlash
  refine ⟨(s.reverse.dropWhile fun c => c != '/').reverse, ?_, ?_⟩
  · rw [← List.reverse_append, List.takeWhile_append_dropWhile, List.reverse_reverse]
  · cases hd : s.reverse.dropWhile fun c => c != '/' with
    | nil => exact Or.inl rfl
    | cons c l =>
      right
      have hc := List.head_dropWhile_not (fun c => c != '/') s.reverse (by simp [hd])
      simp only [hd, List.head_cons, bne_iff_ne, ne_eq, Bool.not_eq_true, bne_eq_false_iff_eq] at hc
      exact ⟨l.reverse, by simp [hc]⟩

theorem ToLower_append (a b : GoString) : ToLower (a ++ b) = ToLower a ++ ToLower b := by
  simp [ToLower]

/-- The test of `save_as_func` on a string and on the part after its last `/`
agree. -/
theorem HasSuffix_ToLower_afterLastSlash (s : GoString) :
    HasSuffix (ToLower s) ".md".toList = HasSuffix (ToLower (afterLastSlash s)) ".md".toList := by
  obtain ⟨pre, hs, hpre⟩ := afterLastSlash_split s
  rw [Bool.eq_iff_iff, HasSuffix_iff, HasSuffix_iff]
  generalize afterLastSlash s = name at hs
  subst hs
  rw [ToLower_append]
  constructor
  · intro h
    rcases hpre with rfl | ⟨p, rfl⟩
    · simpa [ToLower] using h
    · have h2 : ".md".toList <:+ ToLower p ++ '/' :: ToLower name := by
        have e : ToLower (p ++ ['/']) = ToLower p ++ ['/'] := by
          rw [ToLower_append]; rfl
        rw [e, List.append_assoc] at h
        exact h
      exact suffix_after_slash _ _ _ (by decide) h2
  · intro h
    exact h.trans (List.suffix_append _ _)

theorem upper_eq_ofNat (c : Char) (h : 'A' ≤ c ∧ c ≤ 'Z') :
    ∃ n, 65 ≤ n ∧ n ≤ 90 ∧ c = Char.ofNat n := by
  refine ⟨c.toNat, ?_, ?_, (Char.ofNat_toNat c).symm⟩
  · have h1 := h.1
    rw [Char.le_def] at h1
    exact h1
  · have h2 := h.2
    rw [Char.le_def] at h2
    exact h2

theorem unicode_ToLower_eq_dot (c : Char) (h : unicode_ToLower c = '.') : c = '.' := by
  unfold unicode_ToLower at h
  split at h
  · rename_i hr
    obtain ⟨n, h1, h2, rfl⟩ := upper_eq_ofNat c hr
    revert h
    interval_cases n <;> decide
  · exact h

theorem unicode_ToLower_eq_m (c : Char) (h : unicode_ToLower c = 'm') : c = 'm' ∨ c = 'M' := by
  unfold unicode_ToLower at h
  split at h
  · rename_i hr
    obtain ⟨n, h1, h2, rfl⟩ := upper_eq_ofNat c hr
    revert h
    interval_cases n <;> decide
  · exact Or.inl h

theorem unicode_ToLower_eq_d (c : Char) (h : unicode_ToLower c = 'd') : c = 'd' ∨ c = 'D' := by
  unfold unicode_ToLower at h
  split at h
  · rename_i hr
    obtain ⟨n, h1, h2, rfl⟩ := upper_eq_ofNat c hr
    revert h
    interval_cases n <;> decide
  · exact Or.inl h

/-- A name whose lowered form ends in `.md` ends in `.md`, `.MD`, `.Md` or
`.mD`. -/
theorem HasSuffix_of_ToLower (n : GoString)
    (h : HasSuffix (ToLower n) ".md".toList = true) :
    HasSuffix n ".md".toList = true ∨ HasSuffix n ".MD".toList = true ∨
      HasSuffix n ".Md".toList = true ∨ HasSuffix n ".mD".toList = true := by
  rw [HasSuffix_iff] at h
  obtain ⟨t, ht⟩ := h
  obtain ⟨l1, l2, rfl, -, h2⟩ := List.append_eq_map_iff.mp ht
  have h2 : List.map unicode_ToLower l2 = ['.', 'm', 'd'] := h2
  obtain ⟨a, l3, rfl, ha, h3⟩ := List.map_eq_cons_iff.mp h2
  obtain ⟨b, l4, rfl, hb, h4⟩ := List.map_eq_cons_iff.mp h3
  obtain ⟨c, l5, rfl, hc, h5⟩ := List.map_eq_cons_iff.mp h4
  have h6 : l5 = [] := List.map_eq_nil_iff.mp h5
  subst h6
  have ea := unicode_ToLower_eq_dot a ha
  subst ea
  simp only [HasSuffix_iff]
  rcases unicode_ToLower_eq_m b hb with rfl | rfl <;>
    rcases unicode_ToLower_eq_d c hc with rfl | rfl
  · exact Or.inl (List.suffix_append _ _)
  · exact Or.inr (Or.inr (Or.inr (List.suffix_append _ _)))
  · exact Or.inr (Or.inr (Or.inl (List.suffix_append _ _)))
  · exact Or.inr (Or.inl (List.suffix_append _ _))

theorem HasSuffix_ToLower_append (pre name : GoString)
    (h : HasSuffix (ToLower name) ".md".toList = true) :
    HasSuffix (ToLower (pre ++ name)) ".md".toList = true := by
  rw [HasSuffix_iff] at *
  rw [ToLower_append]
  exact h.trans (List.suffix_append _ _)

/-! ## The two outcomes of the test of the extension -/

theorem save_as_accept (s : AppState) (write : URIWriteCloser)
    (h : HasSuffix (ToLower write.URI.String) ".md".toList = true) :
    save_as_func_callback s (some write) none = acceptedState s write := by
  simp only [save_as_func_callback, h, Bool.not_true, Bool.false_eq_true, if_false]
  simp [acceptedState, Write, AppState.emit]

theorem save_as_reject (s : AppState) (write : URIWriteCloser)
    (h : HasSuffix (ToLower write.URI.String) ".md".toList = false) :
    save_as_func_callback s (some write) none = rejectedState s := by
  simp only [save_as_func_callback, h, Bool.not_false, if_true]
  rfl

theorem accepted_acceptedState (s : AppState) (write : URIWriteCloser) :
    Accepted s (acceptedState s write) write := by
  simp [Accepted, acceptedState, setFile]

theorem not_accepted_rejectedState (s : AppState) (write : URIWriteCloser) :
    ¬ Accepted s (rejectedState s) write := by
  intro h
  have h1 := congrArg List.length h.1
  simp [rejectedState, AppState.emit] at h1

/-! ## C1 -/

/-- C1: the claim fails on the code at a target whose URI string does not end
in its name. With the buffer `# Hi` and no tracked file, the Save-as callback
gets, with no error, a writer whose target is named `notes.md` and has the URI
string `content://com.android.providers.downloads.documents/document/37`. The
name ends in `.md`, yet the save is not accepted: the callback only shows the
information dialog, nothing is written, no file is tracked, Save stays disabled
and the title is as before. -/
theorem save_as_rejects_name_md :
    HasSuffix (ToLower "notes.md".toList) ".md".toList = true ∧
      ¬ Accepted ⟨"# Hi".toList, none, true, "Fyne-Markdown".toList, fun _ => none, []⟩
        (save_as_func_callback
          ⟨"# Hi".toList, none, true, "Fyne-Markdown".toList, fun _ => none, []⟩
          (some ⟨⟨"notes.md".toList,
            "content://com.android.providers.downloads.documents/document/37".toList⟩, none⟩)
          none)
        ⟨⟨"notes.md".toList,
          "content://com.android.providers.downloads.documents/document/37".toList⟩, none⟩ ∧
      (save_as_func_callback
          ⟨"# Hi".toList, none, true, "Fyne-Markdown".toList, fun _ => none, []⟩
          (some ⟨⟨"notes.md".toList,
            "content://com.android.providers.downloads.documents/document/37".toList⟩, none⟩)
          none).trace =
        [Effect.ShowInformation "提示".toList "使用.md或.MD作为后缀".toList] ∧
      (save_as_func_callback
          ⟨"# Hi".toList, none, true, "Fyne-Markdown".toList, fun _ => none, []⟩
          (some ⟨⟨"notes.md".toList,
            "content://com.android.providers.downloads.documents/document/37".toList⟩, none⟩)
          none).files
          ⟨"notes.md".toList,
            "content://com.android.providers.downloads.documents/document/37".toList⟩ = none ∧
      (save_as_func_callback
          ⟨"# Hi".toList, none, true, "Fyne-Markdown".toList, fun _ => none, []⟩
          (some ⟨⟨"notes.md".toList,
            "content://com.android.providers.downloads.documents/document/37".toList⟩, none⟩)
          none).CurrentFile = none ∧
      (save_as_func_callback
          ⟨"# Hi".toList, none, true, "Fyne-Markdown".toList, fun _ => none, []⟩
          (some ⟨⟨"notes.md".toList,
            "content://com.android.providers.downloads.documents/document/37".toList⟩, none⟩)
          none).Disabled = true ∧
      (save_as_func_callback
          ⟨"# Hi".toList, none, true, "Fyne-Markdown".toList, fun _ => none, []⟩
          (some ⟨⟨"notes.md".toList,
            "content://com.android.providers.downloads.documents/document/37".toList⟩, none⟩)
          none).Title = "Fyne-Markdown".toList := by
  decide

/-! ### Targets whose name is the tail of the URI string -/

/-- Where the name of the target is the part of its URI string after the last
`/`, as it is for the URI of a file, the test of the callback on the URI string
and the test on the name agree: the callback accepts the save (writes the
buffer, records the target as current file) if and only if the name ends in
`.md` compared without case; when it does the callback ends in the accepting
state, when it does not the callback only shows the information dialog. -/
theorem save_as_accepts_iff_name_md (s : AppState) (write : URIWriteCloser)
    (hname : write.URI.Name = afterLastSlash write.URI.String) :
    (Accepted s (save_as_func_callback s (some write) none) write ↔
        HasSuffix (ToLower write.URI.Name) ".md".toList = true) ∧
      (HasSuffix (ToLower write.URI.Name) ".md".toList = true →
        save_as_func_callback s (some write) none = acceptedState s write) ∧
      (HasSuffix (ToLower write.URI.Name) ".md".toList = false →
        save_as_func_callback s (some write) none = rejectedState s) ∧
      HasSuffix (ToLower write.URI.String) ".md".toList =
        HasSuffix (ToLower write.URI.Name) ".md".toList := by
  have hagree := HasSuffix_ToLower_afterLastSlash write.URI.String
  rw [← hname] at hagree
  rw [← hagree]
  refine ⟨?_, save_as_accept s write, save_as_reject s write, rfl⟩
  cases h : HasSuffix (ToLower write.URI.String) ".md".toList with
  | true =>
    rw [save_as_accept s write h]
    simp [accepted_acceptedState]
  | false =>
    rw [save_as_reject s write h]
    simp [not_accepted_rejectedState]

/-- The agreement of the two tests at the target `file:///tmp/notes.MD`, named
`notes.MD`, from the state at start. -/
theorem save_as_accepts_iff_name_md_witness :
    (Accepted (main fun _ => none)
        (save_as_func_callback (main fun _ => none)
          (some ⟨⟨"notes.MD".toList, "file:///tmp/notes.MD".toList⟩, none⟩) none)
        ⟨⟨"notes.MD".toList, "file:///tmp/notes.MD".toList⟩, none⟩ ↔
        HasSuffix (ToLower "notes.MD".toList) ".md".toList = true) ∧
      HasSuffix (ToLower "notes.MD".toList) ".md".toList = true :=
  ⟨(save_as_accepts_iff_name_md (main fun _ => none)
      ⟨⟨"notes.MD".toList, "file:///tmp/notes.MD".toList⟩, none⟩ (by decide)).1, by decide⟩

/-! ## One event -/

theorem step_of_displayName_none (s : AppState) (e : Event) (h : displayName e = none) :
    (step s e).Title = s.Title ∧ (step s e).Disabled = s.Disabled ∧
      (step s e).CurrentFile = s.CurrentFile := by
  cases e with
  | Open reader err =>
    cases err with
    | some e => exact ⟨rfl, rfl, rfl⟩
    | none =>
      cases reader with
      | none => exact ⟨rfl, rfl, rfl⟩
      | some r =>
        obtain ⟨u, res⟩ := r
        cases res with
        | error e => exact ⟨rfl, rfl, rfl⟩
        | ok data => simp [displayName] at h
  | Save writer =>
    simp only [step, save_func]
    split
    · exact ⟨rfl, rfl, rfl⟩
    · split <;> exact ⟨rfl, rfl, rfl⟩
  | SaveAs write err =>
    cases err with
    | some e => exact ⟨rfl, rfl, rfl⟩
    | none =>
      cases write with
      | none => exact ⟨rfl, rfl, rfl⟩
      | some w =>
        cases hw : HasSuffix (ToLower w.URI.String) ".md".toList with
        | true => simp only [displayName, hw, if_true, reduceCtorEq] at h
        | false =>
          simp only [step]
          rw [save_as_reject s w hw]
          exact ⟨rfl, rfl, rfl⟩

theorem step_of_displayName_some (s : AppState) (e : Event) (n : GoString)
    (h : displayName e = some n) :
    (step s e).Title = s.Title ++ "-".toList ++ n ∧ (step s e).Disabled = false ∧
      (step s e).CurrentFile ≠ none := by
  cases e with
  | Open reader err =>
    cases err with
    | some e => simp [displayName] at h
    | none =>
      cases reader with
      | none => simp [displayName] at h
      | some r =>
        obtain ⟨u, res⟩ := r
        cases res with
        | error e => simp [displayName] at h
        | ok data =>
          simp only [displayName, Option.some.injEq] at h
          subst h
          simp [step, open_func_callback, AppState.emit]
  | Save writer => simp [displayName] at h
  | SaveAs write err =>
    cases err with
    | some e => simp [displayName] at h
    | none =>
      cases write with
      | none => simp [displayName] at h
      | some w =>
        cases hw : HasSuffix (ToLower w.URI.String) ".md".toList with
        | false => simp only [displayName, hw, Bool.false_eq_true, if_false, reduceCtorEq] at h
        | true =>
          simp only [displayName, hw, if_true, Option.some.injEq] at h
          subst h
          simp only [step]
          rw [save_as_accept s w hw]
          simp [acceptedState]

theorem run_append (s : AppState) (a b : List Event) : run s (a ++ b) = run (run s a) b := by
  simp [run, List.foldl_append]

theorem step_SaveInv (s : AppState) (e : Event) (h : SaveInv s) : SaveInv (step s e) := by
  unfold SaveInv at *
  cases hd : displayName e with
  | none =>
    obtain ⟨-, h2, h3⟩ := step_of_displayName_none s e hd
    rw [h2, h3]; exact h
  | some n =>
    obtain ⟨-, h2, h3⟩ := step_of_displayName_some s e n hd
    simp [h2, h3]

theorem run_SaveInv (s : AppState) (events : List Event) (h : SaveInv s) :
    SaveInv (run s events) := by
  induction events generalizing s with
  | nil => exact h
  | cons e es ih => exact ih (step s e) (step_SaveInv s e h)

theorem run_Disabled (s : AppState) (events : List Event) :
    (run s events).Disabled = (s.Disabled && !events.any succeeds) := by
  induction events generalizing s with
  | nil => simp [run]
  | cons e es ih =>
    show (run (step s e) es).Disabled = _
    rw [ih]
    cases hd : displayName e with
    | none =>
      rw [(step_of_displayName_none s e hd).2.1]
      simp [succeeds, hd]
    | some n =>
      rw [(step_of_displayName_some s e n hd).2.1]
      simp [succeeds, hd]

theorem run_Title (s : AppState) (events : List Event) :
    (run s events).Title = s.Title ++ appended (events.filterMap displayName) := by
  induction events generalizing s with
  | nil => simp [run, appended]
  | cons e es ih =>
    show (run (step s e) es).Title = _
    rw [ih]
    cases hd : displayName e with
    | none =>
      rw [(step_of_displayName_none s e hd).1]
      simp [List.filterMap_cons, hd]
    | some n =>
      rw [(step_of_displayName_some s e n hd).1]
      simp [List.filterMap_cons, hd, appended]

/-! ## C2 -/

/-- C2: in every state reached from the state at start (after
`createMenuItems`) by a sequence of Open, Save and Save-as events with any
outcome, the Save item is enabled if and only if a current file is present. -/
theorem save_enabled_iff_file_present (files : URI → Option GoString)
    (events : List Event) :
    (run (main files) events).Disabled = false ↔
      (run (main files) events).CurrentFile ≠ none :=
  run_SaveInv (main files) events (by simp [SaveInv, main, createMenuItems, makeUI])

/-! ## C8 -/

/-- C8: Save is disabled at start; it is disabled after every sequence of
events none of which is a successful Open or an accepted Save-as; it is enabled
right after every successful Open or accepted Save-as, the first one included;
and once it is enabled no further events disable it. -/
theorem save_disabled_until_first_success (files : URI → Option GoString) :
    (main files).Disabled = true ∧
      (∀ events : List Event, (∀ e ∈ events, succeeds e = false) →
        (run (main files) events).Disabled = true) ∧
      (∀ (events : List Event) (e : Event), succeeds e = true →
        (run (main files) (events ++ [e])).Disabled = false) ∧
      (∀ events later : List Event, (run (main files) events).Disabled = false →
        (run (main files) (events ++ later)).Disabled = false) ∧
      (∀ events : List Event,
        (run (main files) events).Disabled = !events.any succeeds) := by
  have h0 : (main files).Disabled = true := rfl
  refine ⟨h0, ?_, ?_, ?_, ?_⟩
  · intro events h
    rw [run_Disabled, h0]
    simpa using h
  · intro events e h
    rw [run_Disabled, h0]
    simp [h]
  · intro events later h
    rw [run_append, run_Disabled, h]
    rfl
  · intro events
    rw [run_Disabled, h0]
    rfl

/-- C8 at a session from start: a Save-as rejected for the name `notes.txt`, a
Save and a cancelled Open leave Save disabled, and the Open of `notes.md` that
follows enables it. -/
theorem save_disabled_until_first_success_witness :
    (run (main fun _ => none)
        [Event.SaveAs (some ⟨⟨"notes.txt".toList, "file:///tmp/notes.txt".toList⟩, none⟩) none,
          Event.Save (Except.ok none), Event.Open none none]).Disabled = true ∧
      (run (main fun _ => none)
        ([Event.SaveAs (some ⟨⟨"notes.txt".toList, "file:///tmp/notes.txt".toList⟩, none⟩) none,
            Event.Save (Except.ok none), Event.Open none none] ++
          [Event.Open
            (some ⟨⟨"notes.md".toList, "file:///tmp/notes.md".toList⟩, Except.ok "# Hi".toList⟩)
            none])).Disabled = false :=
  ⟨(save_disabled_until_first_success fun _ => none).2.1 _ (by decide),
    (save_disabled_until_first_success fun _ => none).2.2.1 _ _ (by decide)⟩

/-! ## C10 -/

/-- C10: from the title `Fyne-Markdown`, after any sequence of events the title
is `Fyne-Markdown` followed by `-` and the display name of every successful
Open and accepted Save-as, in order; such an event appends `-` and its name to
the title and so makes it strictly longer, whatever was opened before; every
other event (Save, cancelled, failed, rejected) leaves the title as it is. -/
theorem title_is_start_plus_names (files : URI → Option GoString) :
    (main files).Title = "Fyne-Markdown".toList ∧
      (∀ events : List Event, (run (main files) events).Title =
        "Fyne-Markdown".toList ++ appended (events.filterMap displayName)) ∧
      (∀ (s : AppState) (e : Event) (n : GoString), displayName e = some n →
        (step s e).Title = s.Title ++ "-".toList ++ n ∧
          s.Title.length < (step s e).Title.length) ∧
      (∀ (s : AppState) (e : Event), displayName e = none →
        (step s e).Title = s.Title) := by
  refine ⟨rfl, ?_, ?_, ?_⟩
  · intro events
    rw [run_Title]
    rfl
  · intro s e n h
    have h1 := (step_of_displayName_some s e n h).1
    refine ⟨h1, ?_⟩
    rw [h1]
    simp only [List.length_append]
    have : ("-".toList).length = 1 := rfl
    omega
  · intro s e h
    exact (step_of_displayName_none s e h).1

/-- C10 at a session from start: `a.md` is opened, Save is chosen, a Save-as to
`b.txt` is rejected, `a.md` is opened again and a Save-as to `b.MD` is
accepted; the title is then `Fyne-Markdown-a.md-a.md-b.MD`. -/
theorem title_is_start_plus_names_witness :
    (run (main fun _ => none)
        [Event.Open (some ⟨⟨"a.md".toList, "file:///a.md".toList⟩, Except.ok "# Hi".toList⟩) none,
          Event.Save (Except.ok none),
          Event.SaveAs (some ⟨⟨"b.txt".toList, "file:///b.txt".toList⟩, none⟩) none,
          Event.Open (some ⟨⟨"a.md".toList, "file:///a.md".toList⟩, Except.ok "# Hi".toList⟩) none,
          Event.SaveAs (some ⟨⟨"b.MD".toList, "file:///b.MD".toList⟩, none⟩) none]).Title =
      "Fyne-Markdown-a.md-a.md-b.MD".toList :=
  ((title_is_start_plus_names fun _ => none).2.1 _).trans (by decide)

/-! ## C4 -/

/-- C4, as stated, fails: from the state at start the Save-as callback accepts
the target `file:///tmp/notes.Md`, whose name `notes.Md` is the part of the URI
string after the last `/` and ends neither in `.md` nor in `.MD`. -/
theorem save_as_accepts_mixed_case :
    Accepted (main fun _ => none)
        (save_as_func_callback (main fun _ => none)
          (some ⟨⟨"notes.Md".toList, "file:///tmp/notes.Md".toList⟩, none⟩) none)
        ⟨⟨"notes.Md".toList, "file:///tmp/notes.Md".toList⟩, none⟩ ∧
      "notes.Md".toList = afterLastSlash "file:///tmp/notes.Md".toList ∧
      HasSuffix "notes.Md".toList ".md".toList = false ∧
      HasSuffix "notes.Md".toList ".MD".toList = false := by
  decide

/-- C4, amended: the filter set on the Open dialog and on the Save-as dialog is
the list of the extensions `.md` and `.MD`; and every target that the Save-as
callback accepts, and whose name is the part of its URI string after the last
`/`, has a name that ends in `.md` compared without case, that is in `.md`,
`.MD`, `.Md` or `.mD`. -/
theorem save_as_accepted_name_md_any_case (s : AppState) (write : URIWriteCloser)
    (hname : write.URI.Name = afterLastSlash write.URI.String)
    (hacc : Accepted s (save_as_func_callback s (some write) none) write) :
    open_func.Filter = some [".md".toList, ".MD".toList] ∧
      save_as_func.Filter = some [".md".toList, ".MD".toList] ∧
      HasSuffix (ToLower write.URI.Name) ".md".toList = true ∧
      (HasSuffix write.URI.Name ".md".toList = true ∨
        HasSuffix write.URI.Name ".MD".toList = true ∨
        HasSuffix write.URI.Name ".Md".toList = true ∨
        HasSuffix write.URI.Name ".mD".toList = true) := by
  have htest : HasSuffix (ToLower write.URI.Name) ".md".toList = true := by
    rw [hname, ← HasSuffix_ToLower_afterLastSlash]
    cases h : HasSuffix (ToLower write.URI.String) ".md".toList with
    | true => rfl
    | false =>
      rw [save_as_reject s write h] at hacc
      exact absurd hacc (not_accepted_rejectedState s write)
  exact ⟨rfl, rfl, htest, HasSuffix_of_ToLower _ htest⟩

/-- C4, amended, at the target `file:///tmp/notes.MD` from the state at start. -/
theorem save_as_accepted_name_md_any_case_witness :
    HasSuffix (ToLower "notes.MD".toList) ".md".toList = true ∧
      (HasSuffix "notes.MD".toList ".md".toList = true ∨
        HasSuffix "notes.MD".toList ".MD".toList = true ∨
        HasSuffix "notes.MD".toList ".Md".toList = true ∨
        HasSuffix "notes.MD".toList ".mD".toList = true) :=
  (save_as_accepted_name_md_any_case (main fun _ => none)
    ⟨⟨"notes.MD".toList, "file:///tmp/notes.MD".toList⟩, none⟩ (by decide) (by decide)).2.2

/-! ## C5 -/

/-- C5: the claim fails on the code at a target whose URI string does not end
in its name. With the buffer `# Hi` and no tracked file, the Save-as callback
gets, with no error, a writer whose target is named `notes.txt` and has the URI
string `content://com.example.documents/document/draft.md`. The name does not
end in `.md`, yet the save is not rejected: the buffer is written to the
target, which becomes the tracked file, Save is enabled and the title grows. -/
theorem save_as_name_txt_not_rejected :
    HasSuffix (ToLower "notes.txt".toList) ".md".toList = false ∧
      (save_as_func_callback
          ⟨"# Hi".toList, none, true, "Fyne-Markdown".toList, fun _ => none, []⟩
          (some ⟨⟨"notes.txt".toList,
            "content://com.example.documents/document/draft.md".toList⟩, none⟩)
          none).trace =
        [Effect.Write ⟨"notes.txt".toList, "content://com.example.documents/document/draft.md".toList⟩ "# Hi".toList,
          Effect.CloseWriter ⟨"notes.txt".toList, "content://com.example.documents/document/draft.md".toList⟩] ∧
      (save_as_func_callback
          ⟨"# Hi".toList, none, true, "Fyne-Markdown".toList, fun _ => none, []⟩
          (some ⟨⟨"notes.txt".toList,
            "content://com.example.documents/document/draft.md".toList⟩, none⟩)
          none).files
          ⟨"notes.txt".toList, "content://com.example.documents/document/draft.md".toList⟩ = some "# Hi".toList ∧
      (save_as_func_callback
          ⟨"# Hi".toList, none, true, "Fyne-Markdown".toList, fun _ => none, []⟩
          (some ⟨⟨"notes.txt".toList,
            "content://com.example.documents/document/draft.md".toList⟩, none⟩)
          none).CurrentFile =
        some ⟨"notes.txt".toList, "content://com.example.documents/document/draft.md".toList⟩ ∧
      (save_as_func_callback
          ⟨"# Hi".toList, none, true, "Fyne-Markdown".toList, fun _ => none, []⟩
          (some ⟨⟨"notes.txt".toList,
            "content://com.example.documents/document/draft.md".toList⟩, none⟩)
          none).Disabled = false ∧
      (save_as_func_callback
          ⟨"# Hi".toList, none, true, "Fyne-Markdown".toList, fun _ => none, []⟩
          (some ⟨⟨"notes.txt".toList,
            "content://com.example.documents/document/draft.md".toList⟩, none⟩)
          none).Title = "Fyne-Markdown-notes.txt".toList := by
  decide

/-! ### Targets whose name is the tail of the URI string -/

/-- Where the name of the target is the part of its URI string after the last
`/`, as it is for the URI of a file, a Save-as rejected for its extension
changes nothing: for every prior state and every such target whose name does
not end in `.md` compared without case, the callback writes nothing (its only
toolkit call is the information dialog) and leaves the buffer, the tracked
file, the Save flag, the title and the stored files as they were; and for the
targets named `notes.md` and `NOTES.MD`, with any URI string that ends in `/`
and that name, the save is accepted. -/
theorem save_as_rejected_changes_nothing (s : AppState) (write : URIWriteCloser)
    (hname : write.URI.Name = afterLastSlash write.URI.String)
    (hext : HasSuffix (ToLower write.URI.Name) ".md".toList = false) :
    Unchanged s (save_as_func_callback s (some write) none) ∧
      (save_as_func_callback s (some write) none).trace =
        s.trace ++ [Effect.ShowInformation "提示".toList "使用.md或.MD作为后缀".toList] ∧
      (∀ (dir : GoString) (room : Option Nat),
        save_as_func_callback s
            (some ⟨⟨"notes.md".toList, dir ++ "/notes.md".toList⟩, room⟩) none =
          acceptedState s ⟨⟨"notes.md".toList, dir ++ "/notes.md".toList⟩, room⟩) ∧
      (∀ (dir : GoString) (room : Option Nat),
        save_as_func_callback s
            (some ⟨⟨"NOTES.MD".toList, dir ++ "/NOTES.MD".toList⟩, room⟩) none =
          acceptedState s ⟨⟨"NOTES.MD".toList, dir ++ "/NOTES.MD".toList⟩, room⟩) := by
  have htest : HasSuffix (ToLower write.URI.String) ".md".toList = false := by
    rw [HasSuffix_ToLower_afterLastSlash, ← hname]
    exact hext
  rw [save_as_reject s write htest]
  refine ⟨⟨rfl, rfl, rfl, rfl, rfl⟩, rfl, ?_, ?_⟩
  · intro dir room
    exact save_as_accept s _ (HasSuffix_ToLower_append dir _ (by decide))
  · intro dir room
    exact save_as_accept s _ (HasSuffix_ToLower_append dir _ (by decide))

/-- The rejection at the target `file:///tmp/notes.txt` named `notes.txt`, with
the buffer `# Hi` and no tracked file. -/
theorem save_as_rejected_changes_nothing_witness :
    Unchanged ⟨"# Hi".toList, none, true, "Fyne-Markdown".toList, fun _ => none, []⟩
      (save_as_func_callback
        ⟨"# Hi".toList, none, true, "Fyne-Markdown".toList, fun _ => none, []⟩
        (some ⟨⟨"notes.txt".toList, "file:///tmp/notes.txt".toList⟩, none⟩) none) :=
  (save_as_rejected_changes_nothing
    ⟨"# Hi".toList, none, true, "Fyne-Markdown".toList, fun _ => none, []⟩
    ⟨⟨"notes.txt".toList, "file:///tmp/notes.txt".toList⟩, none⟩ (by decide) (by decide)).1

/-! ## C7 -/

/-- C7: a dialog that was cancelled or that failed changes nothing. When the
Open callback gets a dialog error (with or without a reader), no reader, or a
reader whose read fails, and when the Save-as callback gets a dialog error
(with or without a writer) or no writer, the buffer, the tracked file, the Save
flag, the title and the stored files stay as they were and no writer is opened
or written. The error dialog is the only toolkit call in the two error cases,
it is followed only by the close of the reader in the case of the failed read,
and on cancellation there is no toolkit call at all. -/
theorem cancelled_or_failed_dialog_changes_nothing (s : AppState) :
    (∀ (reader : Option URIReadCloser) (e : GoError),
        Unchanged s (open_func_callback s reader (some e)) ∧
          (open_func_callback s reader (some e)).trace = s.trace ++ [Effect.ShowError e]) ∧
      open_func_callback s none none = s ∧
      (∀ (u : URI) (e : GoError),
        Unchanged s (open_func_callback s (some ⟨u, Except.error e⟩) none) ∧
          (open_func_callback s (some ⟨u, Except.error e⟩) none).trace =
            s.trace ++ [Effect.ShowError e, Effect.CloseReader u]) ∧
      (∀ (write : Option URIWriteCloser) (e : GoError),
        Unchanged s (save_as_func_callback s write (some e)) ∧
          (save_as_func_callback s write (some e)).trace = s.trace ++ [Effect.ShowError e]) ∧
      save_as_func_callback s none none = s := by
  refine ⟨?_, rfl, ?_, ?_, rfl⟩
  · intro reader e
    exact ⟨⟨rfl, rfl, rfl, rfl, rfl⟩, rfl⟩
  · intro u e
    refine ⟨⟨rfl, rfl, rfl, rfl, rfl⟩, ?_⟩
    simp [open_func_callback, AppState.emit]
  · intro write e
    exact ⟨⟨rfl, rfl, rfl, rfl, rfl⟩, rfl⟩

/-! ## C6 -/

/-- C6: for every prior state and every successful Open of a file at `u` with
contents `c`, afterwards the buffer is `c`, the tracked file is `u` and Save is
enabled; so after a successful Open of `a`, any edit of the buffer, and a
successful Open of `b`, the buffer is the contents of `b` and `b` is the
tracked file. -/
theorem open_replaces_buffer (s : AppState) (u : URI) (c : GoString) :
    (open_func_callback s (some ⟨u, Except.ok c⟩) none).Text = c ∧
      (open_func_callback s (some ⟨u, Except.ok c⟩) none).CurrentFile = some u ∧
      (open_func_callback s (some ⟨u, Except.ok c⟩) none).Disabled = false ∧
      (∀ (a : URI) (ca edited : GoString),
        (open_func_callback
            { open_func_callback s (some ⟨a, Except.ok ca⟩) none with Text := edited }
            (some ⟨u, Except.ok c⟩) none).Text = c ∧
          (open_func_callback
            { open_func_callback s (some ⟨a, Except.ok ca⟩) none with Text := edited }
            (some ⟨u, Except.ok c⟩) none).CurrentFile = some u) := by
  refine ⟨rfl, rfl, rfl, ?_⟩
  intro a ca edited
  exact ⟨rfl, rfl⟩

/-! ## C9 -/

/-- C9: Save with no tracked file does nothing. For every state in which
`CurrentFile` is absent and whatever `storage.Writer` would answer, the action
returns the state it got: no writer is opened, nothing is written, no dialog
is shown, and the buffer, the tracked file, the Save flag and the title are as
before. This is so in every state reached from the start by events none of
which is a successful Open or an accepted Save-as. -/
theorem save_without_file_is_noop (s : AppState)
    (writer : Except GoError (Option Nat)) (h : s.CurrentFile = none) :
    save_func s writer = s ∧
      (save_func s writer).trace = s.trace ∧
      (save_func s writer).files = s.files ∧
      Unchanged s (save_func s writer) ∧
      (∀ (files : URI → Option GoString) (events : List Event),
        (∀ e ∈ events, succeeds e = false) →
          (run (main files) events).CurrentFile = none ∧
            save_func (run (main files) events) writer = run (main files) events) := by
  have key : ∀ t : AppState, t.CurrentFile = none → save_func t writer = t := by
    intro t ht
    unfold save_func
    rw [ht]
  have hs := key s h
  refine ⟨hs, by rw [hs], by rw [hs], by rw [hs]; exact ⟨rfl, rfl, rfl, rfl, rfl⟩, ?_⟩
  intro files events hev
  have hd : (run (main files) events).Disabled = true := by
    rw [run_Disabled]
    have h0 : (main files).Disabled = true := rfl
    rw [h0]
    simpa using hev
  have hinv := run_SaveInv (main files) events (by simp [SaveInv, main, createMenuItems, makeUI])
  have hc : (run (main files) events).CurrentFile = none := by
    by_contra hne
    have := hinv.mpr hne
    rw [hd] at this
    exact Bool.noConfusion this
  exact ⟨hc, key _ hc⟩

/-- C9 at the state at start, with the buffer `# Hi` typed in. -/
theorem save_without_file_is_noop_witness :
    (save_func ⟨"# Hi".toList, none, true, "Fyne-Markdown".toList, fun _ => none, []⟩
        (Except.ok none)).trace = [] :=
  (save_without_file_is_noop
    ⟨"# Hi".toList, none, true, "Fyne-Markdown".toList, fun _ => none, []⟩
    (Except.ok none) rfl).2.1

/-! ## C3 -/

/-- C3: saving and opening again gives the buffer back. For every buffer text
and every location `p`, when the writer takes the whole text (no write
failure), after Save with `p` as the tracked file, and after an accepted
Save-as to `p`, the file at `p` holds exactly the text of the buffer; and a
later successful Open of `p`, whatever the buffer was edited to in between,
sets the buffer to exactly that text. -/
theorem save_then_open_round_trip (s : AppState) (p : URI) (room : Option Nat)
    (hok : writeOk room s.Text = true) :
    (s.CurrentFile = some p →
        (save_func s (Except.ok room)).files p = some s.Text ∧
          ∀ edited : GoString,
            (open_func_callback { save_func s (Except.ok room) with Text := edited }
              (fileReader (save_func s (Except.ok room)) p) none).Text = s.Text) ∧
      (HasSuffix (ToLower p.String) ".md".toList = true →
        (save_as_func_callback s (some ⟨p, room⟩) none).files p = some s.Text ∧
          ∀ edited : GoString,
            (open_func_callback
              { save_as_func_callback s (some ⟨p, room⟩) none with Text := edited }
              (fileReader (save_as_func_callback s (some ⟨p, room⟩) none) p) none).Text =
              s.Text) := by
  have htaken : taken room s.Text = s.Text := by
    cases room with
    | none => rfl
    | some n =>
      simp only [writeOk, decide_eq_true_eq] at hok
      simp only [taken]
      exact List.take_of_length_le hok
  have hopen : ∀ t : AppState, t.files p = some s.Text → ∀ edited : GoString,
      (open_func_callback { t with Text := edited } (fileReader t p) none).Text = s.Text := by
    intro t ht edited
    simp [fileReader, ht, open_func_callback, AppState.emit]
  constructor
  · intro hcur
    have hfile : (save_func s (Except.ok room)).files p = some s.Text := by
      simp [save_func, hcur, Write, storage_Writer, AppState.emit, setFile, htaken]
    exact ⟨hfile, hopen _ hfile⟩
  · intro hext
    have hfile : (save_as_func_callback s (some ⟨p, room⟩) none).files p = some s.Text := by
      rw [save_as_accept s ⟨p, room⟩ hext]
      simp [acceptedState, setFile, htaken]
    exact ⟨hfile, hopen _ hfile⟩

/-- C3 at the buffer `# Hi` and the location `file:///tmp/notes.md`: Save
writes `# Hi` and, after the buffer was emptied, Open gives `# Hi` back. -/
theorem save_then_open_round_trip_witness :
    (save_func
        ⟨"# Hi".toList, some ⟨"notes.md".toList, "file:///tmp/notes.md".toList⟩, false,
          "Fyne-Markdown-notes.md".toList, fun _ => none, []⟩
        (Except.ok none)).files ⟨"notes.md".toList, "file:///tmp/notes.md".toList⟩ =
        some "# Hi".toList ∧
      ∀ edited : GoString,
        (open_func_callback
          { save_func
              ⟨"# Hi".toList, some ⟨"notes.md".toList, "file:///tmp/notes.md".toList⟩, false,
                "Fyne-Markdown-notes.md".toList, fun _ => none, []⟩
              (Except.ok none) with Text := edited }
          (fileReader
            (save_func
              ⟨"# Hi".toList, some ⟨"notes.md".toList, "file:///tmp/notes.md".toList⟩, false,
                "Fyne-Markdown-notes.md".toList, fun _ => none, []⟩
              (Except.ok none))
            ⟨"notes.md".toList, "file:///tmp/notes.md".toList⟩) none).Text = "# Hi".toList :=
  (save_then_open_round_trip
    ⟨"# Hi".toList, some ⟨"notes.md".toList, "file:///tmp/notes.md".toList⟩, false,
      "Fyne-Markdown-notes.md".toList, fun _ => none, []⟩
    ⟨"notes.md".toList, "file:///tmp/notes.md".toList⟩ none rfl).1 rfl

end FyneMarkdown
